import Mathlib

set_option maxHeartbeats 1000000
set_option linter.unnecessarySeqFocus false

namespace Dedalus

/-
Shallow embedding of `dedalus/core/future.py` (class `Future` and its two
typed variants).  The tree-protocol model (`Expr`) covers construction-free
structural operations: `__eq__`, `atoms`, `has`, `replace`.  The evaluation
model (`ENode`) covers the `evaluate`/`attempt` engine with its in-place
argument substitution, single-slot cache and abstract operator hooks.
-/

/-
`Expr.node op args` is a `Future` instance whose concrete operator class
(`self.base`) is identified by the natural number `op`, applied to `args`.
`Expr.leaf lid kind` is an external leaf Operand (e.g. a `Field`), with an
identity `lid` and a variant kind `kind` (standing for its Python type).
`Expr.raw n` is a non-Operand argument (a plain number): the tree methods
skip it via their `isinstance(arg, Operand)` guards.
-/

mutual

inductive Expr where
  | leaf (lid kind : Nat)
  | raw (n : Nat)
  | node (op : Nat) (args : XList)
deriving DecidableEq

inductive XList where
  | nil
  | cons (hd : Expr) (tl : XList)
deriving DecidableEq

end

/-- `isinstance(arg, Operand)`: leaves and Future nodes are Operands, raw
numbers are not. -/
def isOperand : Expr → Bool
  | .leaf _ _ => true
  | .raw _ => false
  | .node _ _ => true

def toListX : XList → List Expr
  | .nil => []
  | .cons a as => a :: toListX as

mutual

/-- `Future.__eq__` (future.py lines 66-71): same concrete operator class
compares the current `args` sequences, different classes yield
`NotImplemented` (modelled as `none`).  Only meaningful when the receiver
is a Future node; Python never dispatches `Future.__eq__` on leaves. -/
def futureEq : Expr → Expr → Option Bool
  | .node o as, .node o2 as2 =>
      if o = o2 then some (pyEqList as as2) else none
  | .node _ _, _ => none
  | _, _ => none

/-- Resolution of the Python `==` protocol between operand values: mismatched
kinds fall through `NotImplemented` on both sides to identity, which is
false for structurally distinct values. -/
def pyEqB : Expr → Expr → Bool
  | .node o as, .node o2 as2 => if o = o2 then pyEqList as as2 else false
  | .leaf l k, .leaf l2 k2 => decide (l = l2) && decide (k = k2)
  | .raw n, .raw m => decide (n = m)
  | _, _ => false

/-- Python list `==`: elementwise comparison. -/
def pyEqList : XList → XList → Bool
  | .nil, .nil => true
  | .cons a as, .cons b bs => pyEqB a b && pyEqList as bs
  | _, _ => false

end

/-- A member of the `vars` argument of `Future.has`/`replace`: either a
concrete operator class (`self.base` compares equal only to the same
class) or an operand value. -/
inductive Tgt where
  | op (o : Nat)
  | val (e : Expr)
deriving DecidableEq

/-- `OrderedSet.update`: append the new elements that are not already
present, keeping first-insertion order. -/
def osUnion (xs ys : List Expr) : List Expr :=
  xs ++ ys.filter (fun y => decide (¬ y ∈ xs))

mutual

/-- `Future.atoms` (future.py lines 92-99): gather leaf operands of the
requested kinds by recursing into every argument that is an Operand.
Modelled from the spec for leaf Operands (their `atoms` is external):
a leaf reports itself when its kind is requested. -/
def atomsN : Expr → List Nat → List Expr
  | .leaf l k, kinds => if k ∈ kinds then [.leaf l k] else []
  | .raw _, _ => []
  | .node _ as, kinds => atomsL as kinds

/-- The `OrderedSet.update` loop of `Future.atoms` over `self.args`. -/
def atomsL : XList → List Nat → List Expr
  | .nil, _ => []
  | .cons a as, kinds =>
      osUnion (if isOperand a then atomsN a kinds else []) (atomsL as kinds)

end

mutual

/-- `Future.has` (future.py lines 101-108): true when the node's own
operator class is among `vars`, else when any Operand argument reports
`has`.  Modelled from the spec for leaf Operands: a leaf matches exactly
the targets equal to itself. -/
def hasN : Expr → List Tgt → Bool
  | .leaf l k, vs => decide (Tgt.val (.leaf l k) ∈ vs)
  | .raw _, _ => false
  | .node o as, vs => decide (Tgt.op o ∈ vs) || hasL as vs

/-- The `any(...)` loop of `Future.has` over `self.args`. -/
def hasL : XList → List Tgt → Bool
  | .nil, _ => false
  | .cons a as, vs => (isOperand a && hasN a vs) || hasL as vs

end

/-- The operator identity of the root node, when the tree is a Future. -/
def rootBase : Expr → Option Nat
  | .node o _ => some o
  | _ => none

mutual

/-- All operator identities appearing at Future nodes of the tree,
following the same Operand-argument recursion as `has`. -/
def opsInN : Expr → List Nat
  | .leaf _ _ => []
  | .raw _ => []
  | .node o as => o :: opsInL as

def opsInL : XList → List Nat
  | .nil => []
  | .cons a as => (if isOperand a then opsInN a else []) ++ opsInL as

end

def isLeafE : Expr → Bool
  | .leaf _ _ => true
  | _ => false

/-- The right-hand side of claim C6 exactly as stated: `X` is the root
node's operator identity, or `X` is a leaf operand contained in
`tree.atoms(type(X))`. -/
def c6rhs (t : Expr) (X : Tgt) : Bool :=
  match X with
  | .op o => rootBase t = some o
  | .val (.leaf l k) => decide ((Expr.leaf l k) ∈ atomsN t [k])
  | .val _ => false

/-- The amended right-hand side: `X` is the operator identity of some
(root or interior) node of the tree, or `X` is a leaf operand contained in
`tree.atoms(type(X))`. -/
def c6rhsAmended (t : Expr) (X : Tgt) : Bool :=
  match X with
  | .op o => decide (o ∈ opsInN t)
  | .val (.leaf l k) => decide ((Expr.leaf l k) ∈ atomsN t [k])
  | .val _ => false

mutual

/-- `Future.replace` (future.py lines 110-122) specialised to an operand
`old` (so `self.base == old` is always false: a class never compares equal
to an operand instance): if the whole expression equals `old` return
`new`, else rebuild the same operator over recursively-replaced Operand
arguments.  Modelled from the spec for leaf Operands: a leaf substitutes
itself when it equals `old`. -/
def replaceValN : Expr → Expr → Expr → Expr
  | .leaf l k, old, new => if pyEqB (.leaf l k) old then new else .leaf l k
  | .raw n, _, _ => .raw n
  | .node o as, old, new =>
      if pyEqB (.node o as) old then new
      else .node o (replaceValL as old new)

def replaceValL : XList → Expr → Expr → XList
  | .nil, _, _ => .nil
  | .cons a as, old, new =>
      .cons (if isOperand a then replaceValN a old new else a)
        (replaceValL as old new)

end

mutual

/-- `Future.replace` (future.py lines 110-122) specialised to an operator
class `old` (so `self == old` is always false: `Future.__eq__` yields
`NotImplemented` against a class and Python falls back to identity): when
the node's own operator equals `old`, apply `new` to the
recursively-replaced arguments, else rebuild the same operator. -/
def replaceOpN : Expr → Nat → Nat → Expr
  | .leaf l k, _, _ => .leaf l k
  | .raw n, _, _ => .raw n
  | .node o as, old, new =>
      if o = old then .node new (replaceOpL as old new)
      else .node o (replaceOpL as old new)

def replaceOpL : XList → Nat → Nat → XList
  | .nil, _, _ => .nil
  | .cons a as, old, new =>
      .cons (if isOperand a then replaceOpN a old new else a)
        (replaceOpL as old new)

end

mutual

/-- Occurrence of an operand `old` anywhere in the tree: at the root (by
structural equality, which is what Python `==` resolves to here) or inside
any Operand argument. -/
def occursN : Expr → Expr → Bool
  | .leaf l k, old => pyEqB (.leaf l k) old
  | .raw _, _ => false
  | .node o as, old => pyEqB (.node o as) old || occursL as old

def occursL : XList → Expr → Bool
  | .nil, _ => false
  | .cons a as, old => (isOperand a && occursN a old) || occursL as old

end

/-
Evaluation-engine model of `Future.evaluate` (future.py lines 137-201),
`attempt` (203-205) and `reset` (88-90).  An `ENode` is a runtime operand:

* `fld f s` — a concrete data `Field` of identity `f`, currently at scale
  `s` (supports `require_scales`);
* `raw n` — an argument that is neither a `Field` nor a `Future`;
* `fut args orig outO sl lid lout chk enfOk opOk deal alloc` — a `Future`
  node: `args`/`orig` are `self.args`/`self.original_args`; `outO` is
  `self.out` (identity of the preallocated output, if any); `sl` is the
  class flag `store_last`; `lid`/`lout` are `self.last_id`/`self.last_out`;
  `chk` is the value the abstract operator hook `check_conditions`
  returns, and `enfOk`/`opOk` record whether the abstract hooks
  `enforce_conditions`/`operate` complete without raising; `deal` is
  `self.domain.dealias`; `alloc` is the identity of the fresh output the
  node allocates when `self.out` is absent.

Outputs are modelled by their `Nat` identity.  Side effects on external
collaborators are recorded as a trace of events `Ev`.
-/

inductive Ev where
  | reqScales (f s : Nat)
  | enforce
  | checkCond (r : Bool)
  | setScales (out s : Nat)
  | operate (out : Nat)
  | reset
deriving DecidableEq

/-- How one `evaluate` call ends: `hit` returns the stored `last_out` from
the cache check; `absent` returns `None` ("not yet possible"); `raised`
means an exception propagated out of the call; `done` returns a freshly
computed output. -/
inductive Outcome where
  | hit (out : Option Nat)
  | absent
  | raised
  | done (out : Nat)
deriving DecidableEq

/-- The Python return value of an `evaluate` call with the given outcome
(`none` is Python `None`; exceptions produce no return value). -/
def retVal : Outcome → Option Nat
  | .hit o => o
  | .absent => none
  | .raised => none
  | .done o => some o

mutual

inductive ENode where
  | fld (f s : Nat)
  | raw (n : Nat)
  | fut (args orig : EList) (outO : Option Nat) (sl : Bool)
      (lid lout : Option Nat) (chk enfOk opOk : Bool) (deal alloc : Nat)
deriving DecidableEq

inductive EList where
  | nil
  | cons (hd : ENode) (tl : EList)
deriving DecidableEq

end

def toListE : EList → List ENode
  | .nil => []
  | .cons a as => a :: toListE as

def isFut : ENode → Bool
  | .fut _ _ _ _ _ _ _ _ _ _ _ => true
  | _ => false

def dealOf : ENode → Nat
  | .fut _ _ _ _ _ _ _ _ _ d _ => d
  | _ => 0

def argsOf : ENode → EList
  | .fut a _ _ _ _ _ _ _ _ _ _ => a
  | _ => .nil

def origOf : ENode → EList
  | .fut _ o _ _ _ _ _ _ _ _ _ => o
  | _ => .nil

def lastIdOf : ENode → Option Nat
  | .fut _ _ _ _ l _ _ _ _ _ _ => l
  | _ => none

def lastOutOf : ENode → Option Nat
  | .fut _ _ _ _ _ l _ _ _ _ _ => l
  | _ => none

/-- The part of `Future.evaluate` after the argument-resolution loop
(future.py lines 163-201), applied to the loop's result
`(substituted args, all_eval flag, exception flag, trace)`: gate on
`all_eval`, then `enforce_conditions`/`check_conditions`, allocate the
output (`self.out` if supplied, truthy, else a fresh object), apply
`set_scales(self.domain.dealias)`, run `operate`, `reset`, and store the
single-slot cache when `store_last` and an id was supplied. -/
def finishEval (orig : EList) (outO : Option Nat) (sl : Bool)
    (lid lout : Option Nat) (chk enfOk opOk : Bool) (deal alloc : Nat)
    (id : Option Nat) (force : Bool)
    (r : EList × Bool × Bool × List Ev) : ENode × Outcome × List Ev :=
  match r with
  | (args2, allEval, raisedArgs, tr) =>
    if raisedArgs then
      (.fut args2 orig outO sl lid lout chk enfOk opOk deal alloc, .raised, tr)
    else if allEval = false then
      (.fut args2 orig outO sl lid lout chk enfOk opOk deal alloc, .absent, tr)
    else if force = false && chk = false then
      (.fut args2 orig outO sl lid lout chk enfOk opOk deal alloc, .absent,
        tr ++ [Ev.checkCond false])
    else
      let tr1 := if force then tr ++ [Ev.enforce] else tr ++ [Ev.checkCond true]
      if force && enfOk = false then
        (.fut args2 orig outO sl lid lout chk enfOk opOk deal alloc, .raised, tr1)
      else
        let out := outO.getD alloc
        let tr2 := tr1 ++ [Ev.setScales out deal]
        if opOk = false then
          (.fut args2 orig outO sl lid lout chk enfOk opOk deal alloc, .raised,
            tr2 ++ [Ev.operate out])
        else
          let store := sl && id.isSome
          (.fut orig orig outO sl (if store then id else lid)
              (if store then some out else lout) chk enfOk opOk deal alloc,
            .done out, tr2 ++ [Ev.operate out, Ev.reset])

mutual

/-- `Future.evaluate` (future.py lines 137-201).  The cache check runs
when `store_last` and an id is supplied: on `id == last_id` the stored
`last_out` is returned immediately; otherwise `last_id`/`last_out` are
cleared and the full pipeline runs. -/
def evalNode : ENode → Option Nat → Bool → ENode × Outcome × List Ev
  | .fld f s, _, _ => (.fld f s, .absent, [])
  | .raw n, _, _ => (.raw n, .absent, [])
  | .fut args orig outO sl lid lout chk enfOk opOk deal alloc, id, force =>
      if sl && id.isSome then
        if id = lid then
          (.fut args orig outO sl lid lout chk enfOk opOk deal alloc, .hit lout, [])
        else
          finishEval orig outO sl none none chk enfOk opOk deal alloc id force
            (evalArgs args id force deal)
      else
        finishEval orig outO sl lid lout chk enfOk opOk deal alloc id force
          (evalArgs args id force deal)

/-- The argument-resolution loop of `Future.evaluate` (future.py lines
149-162): every `Field` argument gets `require_scales(self.domain.dealias)`;
every `Future` argument is evaluated recursively with the same id and
force flag — successful results are substituted in place, a `None` result
clears the `all_eval` flag but the loop continues with the remaining
arguments; an exception aborts the loop and propagates.  Returns
`(new args, all_eval, exception flag, trace)`. -/
def evalArgs : EList → Option Nat → Bool → Nat → EList × Bool × Bool × List Ev
  | .nil, _, _, _ => (.nil, true, false, [])
  | .cons a as, id, force, deal =>
      match a with
      | .fld f _ =>
          let r := evalArgs as id force deal
          (.cons (.fld f deal) r.1, r.2.1, r.2.2.1, Ev.reqScales f deal :: r.2.2.2)
      | .raw n =>
          let r := evalArgs as id force deal
          (.cons (.raw n) r.1, r.2.1, r.2.2.1, r.2.2.2)
      | .fut _ _ _ _ _ _ _ _ _ _ _ =>
          let c := evalNode a id force
          if c.2.1 = .raised then
            (.cons c.1 as, true, true, c.2.2)
          else
            let r := evalArgs as id force deal
            match retVal c.2.1 with
            | some o =>
                (.cons (.fld o (dealOf c.1)) r.1, r.2.1, r.2.2.1, c.2.2 ++ r.2.2.2)
            | none => (.cons c.1 r.1, false, r.2.2.1, c.2.2 ++ r.2.2.2)

end

/-- `Future.attempt` (future.py lines 203-205): evaluation with
`force = False`. -/
def attempt (t : ENode) (id : Option Nat) : ENode × Outcome × List Ev :=
  evalNode t id false

/-- The full evaluation pipeline past the cache check: argument resolution
followed by the gate/kernel stage. -/
def pipeline (args orig : EList) (outO : Option Nat) (sl : Bool)
    (lid lout : Option Nat) (chk enfOk opOk : Bool) (deal alloc : Nat)
    (id : Option Nat) (force : Bool) : ENode × Outcome × List Ev :=
  finishEval orig outO sl lid lout chk enfOk opOk deal alloc id force
    (evalArgs args id force deal)

/-- The outcome of processing a single argument slot in the resolution
loop, described independently of the loop (used to state that the loop
treats every argument the same way, with no short-circuit). -/
def substOne (a : ENode) (id : Option Nat) (force : Bool) (deal : Nat) : ENode :=
  match a with
  | .fld f _ => .fld f deal
  | .raw n => .raw n
  | .fut _ _ _ _ _ _ _ _ _ _ _ =>
      match retVal (evalNode a id force).2.1 with
      | some o => .fld o (dealOf (evalNode a id force).1)
      | none => (evalNode a id force).1

def substArgs : EList → Option Nat → Bool → Nat → EList
  | .nil, _, _, _ => .nil
  | .cons a as, id, f, d => .cons (substOne a id f d) (substArgs as id f d)

/-- Whether a single argument resolves: non-Future arguments always do, a
Future argument resolves when its evaluation returns a non-`None` value. -/
def okOne (a : ENode) (id : Option Nat) (force : Bool) : Bool :=
  match a with
  | .fut _ _ _ _ _ _ _ _ _ _ _ => (retVal (evalNode a id force).2.1).isSome
  | _ => true

def allOk : EList → Option Nat → Bool → Bool
  | .nil, _, _ => true
  | .cons a as, id, f => okOne a id f && allOk as id f

def oneTrace (a : ENode) (id : Option Nat) (force : Bool) (deal : Nat) : List Ev :=
  match a with
  | .fld f _ => [Ev.reqScales f deal]
  | .raw _ => []
  | .fut _ _ _ _ _ _ _ _ _ _ _ => (evalNode a id force).2.2

def argTraces : EList → Option Nat → Bool → Nat → List Ev
  | .nil, _, _, _ => []
  | .cons a as, id, f, d => oneTrace a id f d ++ argTraces as id f d

/-
Construction model of `Future.__init__` (future.py lines 41-56), for the
attributes the claims are about.  An operand participating in construction
is reduced to its `bases` tuple.
-/

structure BOperand where
  bases : List Nat
deriving DecidableEq

/-- How `Future.__init__` can fail.  `valueErrorWrongBases` models line 45,
`raise ValueError("Output field has wrong bases.")`; `attributeError`
models an unbound-attribute read. -/
inductive InitErr where
  | attributeError
  | valueErrorWrongBases
deriving DecidableEq

structure FutureRec where
  args : List BOperand
  originalArgs : List BOperand
  out : Option BOperand
  bases : List Nat
  scales : Nat
deriving DecidableEq

/-- `Future.__init__` (future.py lines 41-56).  Line 43 tests `out`; line
44 then evaluates `out.bases != self.bases` — but `self.bases` is only
assigned at line 50, after this check.  Modelled from the spec: the
external base class `Operand` exposes only the capabilities
collect-matching-leaves, contains, substitute and cast, and the class body
of `Future` defines just `store_last`, so at line 44 `self.bases` is an
unbound attribute and the read raises `AttributeError` whenever `out` is
supplied, before the intended `ValueError` comparison can happen.  With no
`out`, construction proceeds: `self.args`/`self.original_args` are set from
the arguments, `self.bases = self._build_bases(*args)` (the abstract
operator-specific rule, a parameter here) and `self.scales = 1`
(line 56). -/
def futureInit (buildBases : List BOperand → List Nat)
    (args : List BOperand) (out : Option BOperand) : Except InitErr FutureRec :=
  match out with
  | some _ => Except.error InitErr.attributeError
  | none =>
      Except.ok { args := args, originalArgs := args, out := none,
                  bases := buildBases args, scales := 1 }

mutual

theorem pyEqB_iff_eq : ∀ a b : Expr, pyEqB a b = true ↔ a = b
  | .leaf l k, b => by
      cases b <;> simp [pyEqB]
  | .raw n, b => by
      cases b <;> simp [pyEqB]
  | .node o as, b => by
      cases b with
      | leaf l k => simp [pyEqB]
      | raw m => simp [pyEqB]
      | node o2 as2 =>
          by_cases h : o = o2
          · simp [pyEqB, h, pyEqList_iff_eq as as2]
          · simp [pyEqB, h]

theorem pyEqList_iff_eq : ∀ as bs : XList, pyEqList as bs = true ↔ as = bs
  | .nil, bs => by cases bs <;> simp [pyEqList]
  | .cons a as, bs => by
      cases bs with
      | nil => simp [pyEqList]
      | cons b bs =>
          simp [pyEqList, pyEqB_iff_eq a b, pyEqList_iff_eq as bs, Bool.and_eq_true]

end

theorem mem_osUnion (a : Expr) (xs ys : List Expr) :
    a ∈ osUnion xs ys ↔ a ∈ xs ∨ a ∈ ys := by
  simp only [osUnion, List.mem_append, List.mem_filter, decide_eq_true_eq]
  constructor
  · rintro (h | ⟨h, _⟩) <;> [exact Or.inl h; exact Or.inr h]
  · rintro (h | h)
    · exact Or.inl h
    · by_cases hx : a ∈ xs
      · exact Or.inl hx
      · exact Or.inr ⟨h, hx⟩

mutual

theorem hasN_op_iff : ∀ (t : Expr) (o : Nat),
    hasN t [Tgt.op o] = true ↔ o ∈ opsInN t
  | .leaf l k, o => by simp [hasN, opsInN]
  | .raw n, o => by simp [hasN, opsInN]
  | .node o2 as, o => by
      simp [hasN, opsInN, hasL_op_iff as o]
      constructor
      · rintro (rfl | hh)
        · exact Or.inl rfl
        · exact Or.inr hh
      · rintro (rfl | hh)
        · exact Or.inl rfl
        · exact Or.inr hh

theorem hasL_op_iff : ∀ (as : XList) (o : Nat),
    hasL as [Tgt.op o] = true ↔ o ∈ opsInL as
  | .nil, o => by simp [hasL, opsInL]
  | .cons a as, o => by
      cases ha : isOperand a <;>
        simp [hasL, opsInL, ha, hasN_op_iff a o, hasL_op_iff as o]

end

mutual

theorem hasN_leaf_iff : ∀ (t : Expr) (l k : Nat),
    hasN t [Tgt.val (.leaf l k)] = true ↔ (Expr.leaf l k) ∈ atomsN t [k]
  | .leaf l2 k2, l, k => by
      by_cases h : k2 = k <;> simp [hasN, atomsN, h] <;> aesop
  | .raw n, l, k => by simp [hasN, atomsN]
  | .node o as, l, k => by
      simp [hasN, atomsN, hasL_leaf_iff as l k]

theorem hasL_leaf_iff : ∀ (as : XList) (l k : Nat),
    hasL as [Tgt.val (.leaf l k)] = true ↔ (Expr.leaf l k) ∈ atomsL as [k]
  | .nil, l, k => by simp [hasL, atomsL]
  | .cons a as, l, k => by
      cases ha : isOperand a <;>
        simp [hasL, atomsL, mem_osUnion, ha, hasN_leaf_iff a l k,
          hasL_leaf_iff as l k]

end

mutual

theorem hasN_nonleaf : ∀ (t e : Expr), isLeafE e = false →
    hasN t [Tgt.val e] = false
  | .leaf l2 k2, e, he => by
      cases e <;> simp_all [hasN, isLeafE]
  | .raw n, e, he => by simp [hasN]
  | .node o as, e, he => by
      simp [hasN, hasL_nonleaf as e he]

theorem hasL_nonleaf : ∀ (as : XList) (e : Expr), isLeafE e = false →
    hasL as [Tgt.val e] = false
  | .nil, e, he => by simp [hasL]
  | .cons a as, e, he => by
      cases ha : isOperand a <;>
        simp [hasL, ha, hasN_nonleaf a e he, hasL_nonleaf as e he]

end

/-- C6 (counterexample): the claimed agreement `has(X) ↔ (X is the ROOT
operator identity ∨ X ∈ atoms(type(X)))` fails when `X` is the operator
identity of an interior node: for the tree `Op0(Op1(leaf))`, `has(Op1)` is
true but `Op1` is neither the root operator nor a leaf atom. -/
theorem c6_has_atoms_counterexample :
    ¬ (hasN (.node 0 (.cons (.node 1 (.cons (.leaf 7 0) .nil)) .nil))
          [Tgt.op 1] = true ↔
        c6rhs (.node 0 (.cons (.node 1 (.cons (.leaf 7 0) .nil)) .nil))
          (Tgt.op 1) = true) := by
  decide

/-- C6 (amended): `tree.has(X)` is true iff `X` is the operator identity
of some node of the tree (root or interior), or `X` is a leaf operand
contained in `tree.atoms(type(X))`. -/
theorem c6_has_atoms_agreement_amended (t : Expr) (X : Tgt) :
    hasN t [X] = true ↔ c6rhsAmended t X = true := by
  match X with
  | .op o => simpa [c6rhsAmended] using hasN_op_iff t o
  | .val (.leaf l k) => simpa [c6rhsAmended] using hasN_leaf_iff t l k
  | .val (.raw n) => simp [c6rhsAmended, hasN_nonleaf t (.raw n) rfl]
  | .val (.node o as) => simp [c6rhsAmended, hasN_nonleaf t (.node o as) rfl]

mutual

theorem replaceValN_not_occurs : ∀ (t old new : Expr),
    occursN t old = false → replaceValN t old new = t
  | .leaf l k, old, new, h => by
      simp only [occursN] at h
      simp [replaceValN, h]
  | .raw n, old, new, h => by simp [replaceValN]
  | .node o as, old, new, h => by
      simp only [occursN, Bool.or_eq_false_iff] at h
      simp [replaceValN, h.1, replaceValL_not_occurs as old new h.2]

theorem replaceValL_not_occurs : ∀ (as : XList) (old new : Expr),
    occursL as old = false → replaceValL as old new = as
  | .nil, old, new, h => by simp [replaceValL]
  | .cons a as, old, new, h => by
      simp only [occursL, Bool.or_eq_false_iff, Bool.and_eq_false_iff] at h
      cases ha : isOperand a with
      | false => simp [replaceValL, ha, replaceValL_not_occurs as old new h.2]
      | true =>
          have ha2 : occursN a old = false := by
            rcases h.1 with h1 | h1
            · rw [ha] at h1; cases h1
            · exact h1
          simp [replaceValL, ha, replaceValN_not_occurs a old new ha2,
            replaceValL_not_occurs as old new h.2]

end

mutual

theorem replaceOpN_not_occurs : ∀ (t : Expr) (old new : Nat),
    old ∉ opsInN t → replaceOpN t old new = t
  | .leaf l k, old, new, h => by simp [replaceOpN]
  | .raw n, old, new, h => by simp [replaceOpN]
  | .node o as, old, new, h => by
      simp only [opsInN, List.mem_cons, not_or] at h
      have ho : ¬ o = old := fun hh => h.1 hh.symm
      simp [replaceOpN, ho, replaceOpL_not_occurs as old new h.2]

theorem replaceOpL_not_occurs : ∀ (as : XList) (old new : Nat),
    old ∉ opsInL as → replaceOpL as old new = as
  | .nil, old, new, h => by simp [replaceOpL]
  | .cons a as, old, new, h => by
      simp only [opsInL, List.mem_append, not_or] at h
      cases ha : isOperand a with
      | false => simp [replaceOpL, ha, replaceOpL_not_occurs as old new h.2]
      | true =>
          have h1 : old ∉ opsInN a := by
            have := h.1
            rw [ha] at this
            simpa using this
          simp [replaceOpL, ha, replaceOpN_not_occurs a old new h1,
            replaceOpL_not_occurs as old new h.2]

end

/-- C8: `tree.replace(old, new)` returns `new` unchanged when the whole
tree equals `old`; returns the operator `new` applied to the
recursively-replaced arguments when `old` equals the tree's own operator
identity; otherwise rebuilds the same operator over recursively-replaced
arguments, so that when `old` occurs nowhere the result is structurally
equal to the original tree. -/
theorem c8_replace_correctness :
    (∀ t old new : Expr, pyEqB t old = true → isOperand t = true →
        replaceValN t old new = new) ∧
    (∀ (o : Nat) (as : XList) (newOp : Nat),
        replaceOpN (.node o as) o newOp = .node newOp (replaceOpL as o newOp)) ∧
    (∀ (o : Nat) (as : XList) (old new : Expr),
        pyEqB (.node o as) old = false →
        replaceValN (.node o as) old new = .node o (replaceValL as old new)) ∧
    (∀ t old new : Expr, occursN t old = false → replaceValN t old new = t) ∧
    (∀ (t : Expr) (old newOp : Nat), old ∉ opsInN t →
        replaceOpN t old newOp = t) := by
  refine ⟨?_, ?_, ?_, ?_, ?_⟩
  · intro t old new h hop
    cases t with
    | leaf l k => simp [replaceValN, h]
    | raw n => simp [isOperand] at hop
    | node o as => simp [replaceValN, h]
  · intro o as newOp
    simp [replaceOpN]
  · intro o as old new h
    simp [replaceValN, h]
  · exact fun t old new h => replaceValN_not_occurs t old new h
  · exact fun t old newOp h => replaceOpN_not_occurs t old newOp h

theorem c8_replace_correctness_witness :
    replaceValN (.node 5 (.cons (.leaf 1 0) .nil)) (.leaf 9 9) (.raw 3) =
      .node 5 (.cons (.leaf 1 0) .nil) ∧
    replaceValN (.node 5 (.cons (.leaf 1 0) .nil))
        (.node 5 (.cons (.leaf 1 0) .nil)) (.leaf 2 2) = .leaf 2 2 ∧
    replaceOpN (.node 5 (.cons (.leaf 1 0) .nil)) 7 8 =
      .node 5 (.cons (.leaf 1 0) .nil) :=
  ⟨c8_replace_correctness.2.2.2.1 _ _ _ (by decide),
   c8_replace_correctness.1 _ _ _ (by decide) (by decide),
   c8_replace_correctness.2.2.2.2 _ _ _ (by decide)⟩

/-- C9: `A == B` is `True` iff `A` and `B` are the same concrete operator
type and their current `args` sequences are equal element-wise; comparing
values of different types yields `NotImplemented` (`none`) rather than
`False`. -/
theorem c9_structural_equality :
    (∀ (o : Nat) (as : XList) (o2 : Nat) (as2 : XList),
        futureEq (.node o as) (.node o2 as2) = some true ↔
          o = o2 ∧ as = as2) ∧
    (∀ (o o2 : Nat) (as as2 : XList), o ≠ o2 →
        futureEq (.node o as) (.node o2 as2) = none) ∧
    (∀ (o : Nat) (as : XList) (l k : Nat),
        futureEq (.node o as) (.leaf l k) = none) := by
  refine ⟨?_, ?_, ?_⟩
  · intro o as o2 as2
    by_cases h : o = o2
    · simp [futureEq, h, pyEqList_iff_eq]
    · simp [futureEq, h]
  · intro o o2 as as2 h
    simp [futureEq, h]
  · intro o as l k
    rfl

theorem c9_structural_equality_witness :
    futureEq (.node 0 (.cons (.leaf 1 0) .nil)) (.node 1 (.cons (.leaf 1 0) .nil)) =
      none :=
  c9_structural_equality.2.1 0 1 _ _ (by decide)

/-- When no argument raises, the resolution loop processes every argument
independently: the substituted list, the `all_eval` flag and the trace are
the pointwise combination over all arguments — resolution is attempted for
every argument even after one fails. -/
theorem evalArgs_no_raise : ∀ (as : EList) (id : Option Nat) (force : Bool) (deal : Nat),
    (evalArgs as id force deal).2.2.1 = false →
    evalArgs as id force deal =
      (substArgs as id force deal, allOk as id force, false, argTraces as id force deal)
  | .nil, id, force, deal, _ => by
      simp [evalArgs, substArgs, allOk, argTraces]
  | .cons a as, id, force, deal, h => by
      cases a with
      | fld f s =>
          have hh : (evalArgs as id force deal).2.2.1 = false := by
            simpa [evalArgs] using h
          have ih := evalArgs_no_raise as id force deal hh
          simp [evalArgs, substArgs, substOne, allOk, okOne, argTraces, oneTrace, ih]
      | raw n =>
          have hh : (evalArgs as id force deal).2.2.1 = false := by
            simpa [evalArgs] using h
          have ih := evalArgs_no_raise as id force deal hh
          simp [evalArgs, substArgs, substOne, allOk, okOne, argTraces, oneTrace, ih]
      | fut a1 a2 a3 a4 a5 a6 a7 a8 a9 a10 a11 =>
          by_cases hr :
            (evalNode (.fut a1 a2 a3 a4 a5 a6 a7 a8 a9 a10 a11) id force).2.1 = .raised
          · exfalso
            simp [evalArgs, hr] at h
          · cases hv : retVal
                (evalNode (.fut a1 a2 a3 a4 a5 a6 a7 a8 a9 a10 a11) id force).2.1 with
            | some o =>
                have hh : (evalArgs as id force deal).2.2.1 = false := by
                  simpa [evalArgs, hr, hv] using h
                have ih := evalArgs_no_raise as id force deal hh
                simp [evalArgs, substArgs, substOne, allOk, okOne, argTraces, oneTrace,
                  hr, hv, ih]
            | none =>
                have hh : (evalArgs as id force deal).2.2.1 = false := by
                  simpa [evalArgs, hr, hv] using h
                have ih := evalArgs_no_raise as id force deal hh
                simp [evalArgs, substArgs, substOne, allOk, okOne, argTraces, oneTrace,
                  hr, hv, ih]

theorem okOne_false_iff (a : ENode) (id : Option Nat) (force : Bool) :
    okOne a id force = false ↔
      isFut a = true ∧ retVal (evalNode a id force).2.1 = none := by
  cases a with
  | fld f s => simp [okOne, isFut]
  | raw n => simp [okOne, isFut]
  | fut a1 a2 a3 a4 a5 a6 a7 a8 a9 a10 a11 =>
      cases hv : retVal (evalNode (.fut a1 a2 a3 a4 a5 a6 a7 a8 a9 a10 a11) id force).2.1 <;>
        simp [okOne, isFut, hv]

theorem allOk_false_iff : ∀ (as : EList) (id : Option Nat) (force : Bool),
    allOk as id force = false ↔
      ∃ a, a ∈ toListE as ∧ isFut a = true ∧
        retVal (evalNode a id force).2.1 = none
  | .nil, id, force => by simp [allOk, toListE]
  | .cons a as, id, force => by
      simp only [allOk, toListE, Bool.and_eq_false_iff, okOne_false_iff a id force,
        allOk_false_iff as id force, List.mem_cons]
      constructor
      · rintro (⟨h1, h2⟩ | ⟨b, hb1, hb2⟩)
        · exact ⟨a, Or.inl rfl, h1, h2⟩
        · exact ⟨b, Or.inr hb1, hb2⟩
      · rintro ⟨b, hb0 | hb0, hb1, hb2⟩
        · subst hb0; exact Or.inl ⟨hb1, hb2⟩
        · exact Or.inr ⟨b, hb0, hb1, hb2⟩

theorem finishEval_done_state (orig : EList) (outO : Option Nat) (sl : Bool)
    (lid lout : Option Nat) (chk enfOk opOk : Bool) (deal alloc : Nat)
    (id : Option Nat) (force : Bool) (args2 : EList) (allE rF : Bool)
    (tr : List Ev) (out : Nat)
    (h : (finishEval orig outO sl lid lout chk enfOk opOk deal alloc id force
        (args2, allE, rF, tr)).2.1 = .done out) :
    (finishEval orig outO sl lid lout chk enfOk opOk deal alloc id force
        (args2, allE, rF, tr)).1 =
      .fut orig orig outO sl (if sl && id.isSome then id else lid)
        (if sl && id.isSome then some out else lout) chk enfOk opOk deal alloc ∧
    out = outO.getD alloc := by
  cases rF <;> cases allE <;> cases force <;> cases chk <;> cases enfOk <;>
    cases opOk <;> simp_all [finishEval]

theorem finishEval_done_trace (orig : EList) (outO : Option Nat) (sl : Bool)
    (lid lout : Option Nat) (chk enfOk opOk : Bool) (deal alloc : Nat)
    (id : Option Nat) (force : Bool) (args2 : EList) (allE rF : Bool)
    (tr : List Ev) (out : Nat)
    (h : (finishEval orig outO sl lid lout chk enfOk opOk deal alloc id force
        (args2, allE, rF, tr)).2.1 = .done out) :
    (finishEval orig outO sl lid lout chk enfOk opOk deal alloc id force
        (args2, allE, rF, tr)).2.2 =
      tr ++ (if force then [Ev.enforce] else [Ev.checkCond true]) ++
        [Ev.setScales out deal, Ev.operate out, Ev.reset] := by
  cases rF <;> cases allE <;> cases force <;> cases chk <;> cases enfOk <;>
    cases opOk <;> simp_all [finishEval]

theorem finishEval_absent_iff (orig : EList) (outO : Option Nat) (sl : Bool)
    (lid lout : Option Nat) (chk enfOk opOk : Bool) (deal alloc : Nat)
    (id : Option Nat) (force : Bool) (args2 : EList) (allE : Bool)
    (tr : List Ev) :
    (finishEval orig outO sl lid lout chk enfOk opOk deal alloc id force
        (args2, allE, false, tr)).2.1 = .absent ↔
      (allE = false ∨ (force = false ∧ chk = false)) := by
  cases allE <;> cases force <;> cases chk <;> cases enfOk <;>
    cases opOk <;> simp [finishEval]

theorem finishEval_absent_state_trace (orig : EList) (outO : Option Nat) (sl : Bool)
    (lid lout : Option Nat) (chk enfOk opOk : Bool) (deal alloc : Nat)
    (id : Option Nat) (force : Bool) (args2 : EList) (allE : Bool)
    (tr : List Ev)
    (h : (finishEval orig outO sl lid lout chk enfOk opOk deal alloc id force
        (args2, allE, false, tr)).2.1 = .absent) :
    (finishEval orig outO sl lid lout chk enfOk opOk deal alloc id force
        (args2, allE, false, tr)).1 =
      .fut args2 orig outO sl lid lout chk enfOk opOk deal alloc ∧
    ((finishEval orig outO sl lid lout chk enfOk opOk deal alloc id force
        (args2, allE, false, tr)).2.2 = tr ∨
      (finishEval orig outO sl lid lout chk enfOk opOk deal alloc id force
        (args2, allE, false, tr)).2.2 = tr ++ [Ev.checkCond false]) := by
  cases allE <;> cases force <;> cases chk <;> cases enfOk <;>
    cases opOk <;> simp_all [finishEval]

theorem finishEval_raised (orig : EList) (outO : Option Nat) (sl : Bool)
    (lid lout : Option Nat) (chk enfOk opOk : Bool) (deal alloc : Nat)
    (id : Option Nat) (args2 : EList) (tr : List Ev)
    (hko : enfOk = false ∨ opOk = false) :
    (finishEval orig outO sl lid lout chk enfOk opOk deal alloc id true
        (args2, true, false, tr)).2.1 = .raised ∧
    (finishEval orig outO sl lid lout chk enfOk opOk deal alloc id true
        (args2, true, false, tr)).1 =
      .fut args2 orig outO sl lid lout chk enfOk opOk deal alloc := by
  cases chk <;> cases enfOk <;> cases opOk <;> simp_all [finishEval]

theorem evalNode_fut_eq (args orig : EList) (outO : Option Nat) (sl : Bool)
    (lid lout : Option Nat) (chk enfOk opOk : Bool) (deal alloc : Nat)
    (id : Option Nat) (force : Bool) :
    evalNode (.fut args orig outO sl lid lout chk enfOk opOk deal alloc) id force =
      if sl && id.isSome then
        if id = lid then
          (.fut args orig outO sl lid lout chk enfOk opOk deal alloc, .hit lout, [])
        else pipeline args orig outO sl none none chk enfOk opOk deal alloc id force
      else pipeline args orig outO sl lid lout chk enfOk opOk deal alloc id force := by
  simp only [evalNode, pipeline]

theorem reqScales_mem_argTraces : ∀ (as : EList) (id : Option Nat) (force : Bool)
    (deal f s : Nat), (ENode.fld f s) ∈ toListE as →
    Ev.reqScales f deal ∈ argTraces as id force deal
  | .nil, _, _, _, _, _, h => by simp [toListE] at h
  | .cons a as, id, force, deal, f, s, h => by
      simp only [toListE, List.mem_cons] at h
      rcases h with h | h
      · subst h
        simp [argTraces, oneTrace]
      · exact List.mem_append_right _ (reqScales_mem_argTraces as id force deal f s h)

theorem finishEval_cache_untouched (orig : EList) (outO : Option Nat) (sl : Bool)
    (lid lout : Option Nat) (chk enfOk opOk : Bool) (deal alloc : Nat)
    (id : Option Nat) (force : Bool) (args2 : EList) (allE rF : Bool) (tr : List Ev)
    (hs : (sl && id.isSome) = false) :
    lastIdOf (finishEval orig outO sl lid lout chk enfOk opOk deal alloc id force
        (args2, allE, rF, tr)).1 = lid ∧
    lastOutOf (finishEval orig outO sl lid lout chk enfOk opOk deal alloc id force
        (args2, allE, rF, tr)).1 = lout := by
  cases rF <;> cases allE <;> cases force <;> cases chk <;> cases enfOk <;>
    cases opOk <;> simp_all [finishEval, lastIdOf, lastOutOf]

theorem pipeline_done_reset (args orig : EList) (outO : Option Nat) (sl : Bool)
    (lid lout : Option Nat) (chk enfOk opOk : Bool) (deal alloc : Nat)
    (id : Option Nat) (force : Bool) (out : Nat)
    (h : (pipeline args orig outO sl lid lout chk enfOk opOk deal alloc
        id force).2.1 = .done out) :
    argsOf (pipeline args orig outO sl lid lout chk enfOk opOk deal alloc
        id force).1 =
      origOf (pipeline args orig outO sl lid lout chk enfOk opOk deal alloc
        id force).1 := by
  rcases hE : evalArgs args id force deal with ⟨args2, allE, rF, tr⟩
  rw [pipeline, hE] at h ⊢
  obtain ⟨h1, _⟩ := finishEval_done_state orig outO sl lid lout chk enfOk opOk deal
    alloc id force args2 allE rF tr out h
  rw [h1]
  rfl

theorem pipeline_cache_untouched (args orig : EList) (outO : Option Nat) (sl : Bool)
    (lid lout : Option Nat) (chk enfOk opOk : Bool) (deal alloc : Nat)
    (id : Option Nat) (force : Bool) (hs : (sl && id.isSome) = false) :
    lastIdOf (pipeline args orig outO sl lid lout chk enfOk opOk deal alloc
        id force).1 = lid ∧
    lastOutOf (pipeline args orig outO sl lid lout chk enfOk opOk deal alloc
        id force).1 = lout := by
  rcases hE : evalArgs args id force deal with ⟨args2, allE, rF, tr⟩
  rw [pipeline, hE]
  exact finishEval_cache_untouched orig outO sl lid lout chk enfOk opOk deal alloc
    id force args2 allE rF tr hs

theorem pipeline_done_cache_store (args orig : EList) (outO : Option Nat) (sl : Bool)
    (lid lout : Option Nat) (chk enfOk opOk : Bool) (deal alloc : Nat)
    (id : Option Nat) (force : Bool) (out : Nat)
    (h : (pipeline args orig outO sl lid lout chk enfOk opOk deal alloc
        id force).2.1 = .done out) :
    lastIdOf (pipeline args orig outO sl lid lout chk enfOk opOk deal alloc
        id force).1 = (if sl && id.isSome then id else lid) ∧
    lastOutOf (pipeline args orig outO sl lid lout chk enfOk opOk deal alloc
        id force).1 = (if sl && id.isSome then some out else lout) := by
  rcases hE : evalArgs args id force deal with ⟨args2, allE, rF, tr⟩
  rw [pipeline, hE] at h ⊢
  obtain ⟨h1, _⟩ := finishEval_done_state orig outO sl lid lout chk enfOk opOk deal
    alloc id force args2 allE rF tr out h
  rw [h1]
  constructor <;> simp [lastIdOf, lastOutOf]

theorem pipeline_done_trace_shape (args orig : EList) (outO : Option Nat) (sl : Bool)
    (lid lout : Option Nat) (chk enfOk opOk : Bool) (deal alloc : Nat)
    (id : Option Nat) (force : Bool) (t2 : ENode) (out : Nat) (tr : List Ev)
    (h : pipeline args orig outO sl lid lout chk enfOk opOk deal alloc id force =
      (t2, .done out, tr)) :
    ∃ pre, tr = pre ++ [Ev.setScales out deal, Ev.operate out, Ev.reset] ∧
      ∀ f s, (ENode.fld f s) ∈ toListE args → Ev.reqScales f deal ∈ pre := by
  rcases hE : evalArgs args id force deal with ⟨args2, allE, rF, tr0⟩
  rw [pipeline, hE] at h
  have h21 : (finishEval orig outO sl lid lout chk enfOk opOk deal alloc id force
      (args2, allE, rF, tr0)).2.1 = .done out := by rw [h]
  cases rF with
  | true => simp [finishEval] at h21
  | false =>
      have htr := finishEval_done_trace orig outO sl lid lout chk enfOk opOk deal
        alloc id force args2 allE false tr0 out h21
      have htr1 : (finishEval orig outO sl lid lout chk enfOk opOk deal alloc id
          force (args2, allE, false, tr0)).2.2 = tr := by rw [h]
      have htr2 : tr = tr0 ++ (if force then [Ev.enforce] else [Ev.checkCond true]) ++
          [Ev.setScales out deal, Ev.operate out, Ev.reset] := htr1.symm.trans htr
      have hnr : (evalArgs args id force deal).2.2.1 = false := by rw [hE]
      have hEm := evalArgs_no_raise args id force deal hnr
      have hcomp := hE.symm.trans hEm
      simp only [Prod.mk.injEq] at hcomp
      refine ⟨tr0 ++ (if force then [Ev.enforce] else [Ev.checkCond true]), ?_, ?_⟩
      · rw [htr2, List.append_assoc]
      · intro f s hf
        apply List.mem_append_left
        rw [hcomp.2.2.2]
        exact reqScales_mem_argTraces args id force deal f s hf

/-- C1 (counterexample): rollback is not performed on the not-yet-possible
path.  For a parent whose first Future argument evaluates successfully and
whose second yields `None` (its `check_conditions` is unmet under
`force=False`), `evaluate` returns the absent value while `self.args`
still holds the substituted output of the first argument, so `args` is no
longer equal to `original_args` when the call returns. -/
theorem c1_rollback_counterexample :
    ((evalNode (.fut
        (.cons (.fut .nil .nil none false none none true true true 1 10)
          (.cons (.fut .nil .nil none false none none false true true 1 20) .nil))
        (.cons (.fut .nil .nil none false none none true true true 1 10)
          (.cons (.fut .nil .nil none false none none false true true 1 20) .nil))
        none false none none true true true 1 100) none false).2.1 = .absent) ∧
    argsOf ((evalNode (.fut
        (.cons (.fut .nil .nil none false none none true true true 1 10)
          (.cons (.fut .nil .nil none false none none false true true 1 20) .nil))
        (.cons (.fut .nil .nil none false none none true true true 1 10)
          (.cons (.fut .nil .nil none false none none false true true 1 20) .nil))
        none false none none true true true 1 100) none false).1) ≠
      origOf ((evalNode (.fut
        (.cons (.fut .nil .nil none false none none true true true 1 10)
          (.cons (.fut .nil .nil none false none none false true true 1 20) .nil))
        (.cons (.fut .nil .nil none false none none true true true 1 10)
          (.cons (.fut .nil .nil none false none none false true true 1 20) .nil))
        none false none none true true true 1 100) none false).1) := by
  decide

/-- C1 (amended): rollback is guaranteed only on the successful path —
whenever an `evaluate` call returns a computed output, the returned node's
`args` equals `original_args` (the `reset` of future.py line 194); a call
that returns the absent not-yet-possible value may leave substituted
evaluated arguments in `args`. -/
theorem c1_rollback_on_output (t : ENode) (id : Option Nat) (force : Bool) (out : Nat)
    (h : (evalNode t id force).2.1 = .done out) :
    argsOf (evalNode t id force).1 = origOf (evalNode t id force).1 := by
  cases t with
  | fld f s => simp [evalNode] at h
  | raw n => simp [evalNode] at h
  | fut args orig outO sl lid lout chk enfOk opOk deal alloc =>
      rw [evalNode_fut_eq] at h ⊢
      by_cases h1 : (sl && id.isSome) = true
      · rw [if_pos h1] at h ⊢
        by_cases h2 : id = lid
        · rw [if_pos h2] at h
          simp at h
        · rw [if_neg h2] at h ⊢
          exact pipeline_done_reset args orig outO sl none none chk enfOk opOk deal
            alloc id force out h
      · rw [if_neg h1] at h ⊢
        exact pipeline_done_reset args orig outO sl lid lout chk enfOk opOk deal
          alloc id force out h

theorem c1_rollback_on_output_witness :
    argsOf (evalNode (.fut (.cons (.raw 1) .nil) (.cons (.raw 1) .nil) none false
        none none true true true 1 10) none true).1 =
      origOf (evalNode (.fut (.cons (.raw 1) .nil) (.cons (.raw 1) .nil) none false
        none none true true true 1 10) none true).1 :=
  c1_rollback_on_output _ none true 10 (by decide)

/-- C2 (code bug): construction with a supplied `out` can never perform
the intended bases validation.  Line 44 reads `self.bases` before line 50
assigns it, so every construction with `out` fails with `AttributeError` —
including when the supplied operand's bases equal the computed bases, where
the claim says construction succeeds — and the `OutputBasesMismatch`
`ValueError` of line 45 is unreachable; without `out` construction
succeeds. -/
theorem c2_out_bases_validation_bug :
    (∀ (buildBases : List BOperand → List Nat) (as : List BOperand) (o : BOperand),
      futureInit buildBases as (some o) = .error .attributeError) ∧
    (∀ (buildBases : List BOperand → List Nat) (as : List BOperand),
      futureInit buildBases as none =
        .ok { args := as, originalArgs := as, out := none,
              bases := buildBases as, scales := 1 }) ∧
    futureInit (fun _ => [3]) [⟨[1]⟩, ⟨[2]⟩] (some ⟨[3]⟩) =
      .error .attributeError :=
  ⟨fun _ _ _ => rfl, fun _ _ => rfl, rfl⟩

/-- C3 (counterexample): a successful NON-forced evaluation also updates
the memo.  On a cache-enabled node, `attempt`-style evaluation
(`force=False`) with id 5 succeeds and sets `last_id`/`last_out`, which
the claim says only a forced evaluation may do. -/
theorem c3_cache_update_counterexample :
    ((evalNode (.fut .nil .nil none true none none true true true 1 30)
        (some 5) false).2.1 = .done 30) ∧
    lastIdOf ((evalNode (.fut .nil .nil none true none none true true true 1 30)
        (some 5) false).1) = some 5 ∧
    lastOutOf ((evalNode (.fut .nil .nil none true none none true true true 1 30)
        (some 5) false).1) = some 30 ∧
    lastIdOf (.fut .nil .nil none true none none true true true 1 30 : ENode) =
      none := by
  decide

/-- C3 (amended): on a cache-enabled node, `last_id`/`last_out` are set by
every successful evaluation that was supplied an id — forced or not (the
store at future.py lines 197-199 does not consult `force`); evaluations on
a non-cache-enabled node, or without an id, leave them unchanged whatever
the outcome. -/
theorem c3_cache_update_any_success (args orig : EList) (outO : Option Nat)
    (lid lout : Option Nat) (chk enfOk opOk : Bool) (deal alloc : Nat)
    (i : Nat) (force : Bool) (out : Nat) :
    ((evalNode (.fut args orig outO true lid lout chk enfOk opOk deal alloc)
          (some i) force).2.1 = .done out →
      lastIdOf (evalNode (.fut args orig outO true lid lout chk enfOk opOk deal
          alloc) (some i) force).1 = some i ∧
      lastOutOf (evalNode (.fut args orig outO true lid lout chk enfOk opOk deal
          alloc) (some i) force).1 = some out) ∧
    (∀ id : Option Nat,
      lastIdOf (evalNode (.fut args orig outO false lid lout chk enfOk opOk deal
          alloc) id force).1 = lid ∧
      lastOutOf (evalNode (.fut args orig outO false lid lout chk enfOk opOk deal
          alloc) id force).1 = lout) ∧
    (lastIdOf (evalNode (.fut args orig outO true lid lout chk enfOk opOk deal
        alloc) none force).1 = lid ∧
      lastOutOf (evalNode (.fut args orig outO true lid lout chk enfOk opOk deal
        alloc) none force).1 = lout) := by
  refine ⟨?_, ?_, ?_⟩
  · intro h
    rw [evalNode_fut_eq] at h ⊢
    have hc : (true && (some i : Option Nat).isSome) = true := rfl
    rw [if_pos hc] at h ⊢
    by_cases h2 : (some i : Option Nat) = lid
    · rw [if_pos h2] at h
      simp at h
    · rw [if_neg h2] at h ⊢
      have := pipeline_done_cache_store args orig outO true none none chk enfOk opOk
        deal alloc (some i) force out h
      simpa using this
  · intro id
    rw [evalNode_fut_eq]
    have hc : (false && id.isSome) = false := by simp
    rw [if_neg (by simp)]
    exact pipeline_cache_untouched args orig outO false lid lout chk enfOk opOk deal
      alloc id force hc
  · rw [evalNode_fut_eq]
    have hc : (true && (none : Option Nat).isSome) = false := rfl
    rw [if_neg (by simp)]
    exact pipeline_cache_untouched args orig outO true lid lout chk enfOk opOk deal
      alloc none force hc

theorem c3_cache_update_any_success_witness :
    lastIdOf (evalNode (.fut .nil .nil none true none none true true true 1 30)
        (some 7) false).1 = some 7 ∧
    lastOutOf (evalNode (.fut .nil .nil none true none none true true true 1 30)
        (some 7) false).1 = some 30 :=
  (c3_cache_update_any_success .nil .nil none none none true true true 1 30 7
    false 30).1 (by decide)

/-- C4: past the cache check, evaluation yields the absent value iff some
Future argument evaluated to `None`, or `force` is false and
`check_conditions` reports not-ready; in either absent case the trace
carries no kernel events of this node (no `set_scales`/`operate`, at most
the failed `check_conditions` probe after the argument-resolution events);
and the resolution loop processes every argument independently with no
short-circuit. -/
theorem c4_absent_iff_no_kernel (args orig : EList) (outO : Option Nat) (sl : Bool)
    (lid lout : Option Nat) (chk enfOk opOk : Bool) (deal alloc : Nat)
    (id : Option Nat) (force : Bool)
    (hnr : (evalArgs args id force deal).2.2.1 = false) :
    ((pipeline args orig outO sl lid lout chk enfOk opOk deal alloc id
        force).2.1 = .absent ↔
      ((∃ a, a ∈ toListE args ∧ isFut a = true ∧
          retVal (evalNode a id force).2.1 = none) ∨
        (force = false ∧ chk = false))) ∧
    ((pipeline args orig outO sl lid lout chk enfOk opOk deal alloc id
        force).2.1 = .absent →
      (pipeline args orig outO sl lid lout chk enfOk opOk deal alloc id
          force).2.2 = argTraces args id force deal ∨
      (pipeline args orig outO sl lid lout chk enfOk opOk deal alloc id
          force).2.2 = argTraces args id force deal ++ [Ev.checkCond false]) ∧
    (evalArgs args id force deal).1 = substArgs args id force deal := by
  have hE := evalArgs_no_raise args id force deal hnr
  refine ⟨?_, ?_, ?_⟩
  · rw [pipeline, hE, finishEval_absent_iff]
    exact or_congr (allOk_false_iff args id force) Iff.rfl
  · intro h
    rw [pipeline, hE] at h ⊢
    exact (finishEval_absent_state_trace orig outO sl lid lout chk enfOk opOk deal
      alloc id force (substArgs args id force deal) (allOk args id force)
      (argTraces args id force deal) h).2
  · rw [hE]

theorem c4_absent_iff_no_kernel_witness :
    (pipeline (.cons (.fut .nil .nil none false none none false true true 1 20) .nil)
        (.cons (.fut .nil .nil none false none none false true true 1 20) .nil)
        none false none none false true true 1 100 none false).2.1 = .absent :=
  (c4_absent_iff_no_kernel
    (.cons (.fut .nil .nil none false none none false true true 1 20) .nil)
    (.cons (.fut .nil .nil none false none none false true true 1 20) .nil)
    none false none none false true true 1 100 none false (by decide)).1.mpr
    (Or.inr ⟨rfl, rfl⟩)

/-- C5: on a cache-enabled node called with a non-absent id, when the id
equals the stored `last_id` the stored `last_out` is returned immediately,
with unchanged state and an empty trace (no recursion into arguments, no
kernel events); when the id differs, evaluation equals the full pipeline
run with `last_id`/`last_out` cleared first. -/
theorem c5_cache_check (args orig : EList) (outO : Option Nat)
    (lid lout : Option Nat) (chk enfOk opOk : Bool) (deal alloc : Nat)
    (i : Nat) (force : Bool) :
    (lid = some i →
      evalNode (.fut args orig outO true lid lout chk enfOk opOk deal alloc)
          (some i) force =
        (.fut args orig outO true lid lout chk enfOk opOk deal alloc,
          .hit lout, [])) ∧
    (lid ≠ some i →
      evalNode (.fut args orig outO true lid lout chk enfOk opOk deal alloc)
          (some i) force =
        pipeline args orig outO true none none chk enfOk opOk deal alloc
          (some i) force) := by
  constructor
  · intro h
    subst h
    simp [evalNode_fut_eq]
  · intro h
    have h2 : ¬ ((some i : Option Nat) = lid) := fun hh => h hh.symm
    simp [evalNode_fut_eq, h2]

theorem c5_cache_check_witness :
    evalNode (.fut .nil .nil none true (some 3) (some 9) true true true 1 5)
        (some 3) true =
      (.fut .nil .nil none true (some 3) (some 9) true true true 1 5,
        .hit (some 9), []) ∧
    evalNode (.fut .nil .nil none true (some 3) (some 9) true true true 1 5)
        (some 4) true =
      pipeline .nil .nil none true none none true true true 1 5 (some 4) true :=
  ⟨(c5_cache_check .nil .nil none (some 3) (some 9) true true true 1 5 3 true).1 rfl,
   (c5_cache_check .nil .nil none (some 3) (some 9) true true true 1 5 4 true).2
     (by decide)⟩

/-- C7: the node's `scales` attribute defaults to 1 at construction
(future.py line 56), while during evaluation the scale actually applied is
`self.domain.dealias`: every Field argument receives
`require_scales(dealias)` during argument resolution, and the freshly
produced output receives `set_scales(dealias)` immediately before
`operate` writes into it — all `require_scales` events precede the
`set_scales`/`operate` pair, which share the same scale value. -/
theorem c7_scales_before_operate :
    (∀ (buildBases : List BOperand → List Nat) (as : List BOperand),
        ∃ r, futureInit buildBases as none = .ok r ∧ r.scales = 1) ∧
    (∀ (args orig : EList) (outO : Option Nat) (sl : Bool) (lid lout : Option Nat)
        (chk enfOk opOk : Bool) (deal alloc : Nat) (id : Option Nat) (force : Bool)
        (t2 : ENode) (out : Nat) (tr : List Ev),
        evalNode (.fut args orig outO sl lid lout chk enfOk opOk deal alloc) id
            force = (t2, .done out, tr) →
        ∃ pre, tr = pre ++ [Ev.setScales out deal, Ev.operate out, Ev.reset] ∧
          ∀ f s, (ENode.fld f s) ∈ toListE args → Ev.reqScales f deal ∈ pre) := by
  constructor
  · intro bb as
    exact ⟨_, rfl, rfl⟩
  · intro args orig outO sl lid lout chk enfOk opOk deal alloc id force t2 out tr h
    rw [evalNode_fut_eq] at h
    by_cases h1 : (sl && id.isSome) = true
    · rw [if_pos h1] at h
      by_cases h2 : id = lid
      · rw [if_pos h2] at h
        simp [Prod.ext_iff] at h
      · rw [if_neg h2] at h
        exact pipeline_done_trace_shape args orig outO sl none none chk enfOk opOk
          deal alloc id force t2 out tr h
    · rw [if_neg h1] at h
      exact pipeline_done_trace_shape args orig outO sl lid lout chk enfOk opOk
        deal alloc id force t2 out tr h

theorem c7_scales_before_operate_witness :
    ∃ pre, [Ev.reqScales 4 2, Ev.enforce, Ev.setScales 50 2, Ev.operate 50,
        Ev.reset] = pre ++ [Ev.setScales 50 2, Ev.operate 50, Ev.reset] ∧
      ∀ f s, (ENode.fld f s) ∈ toListE (.cons (.fld 4 0) .nil) →
        Ev.reqScales f 2 ∈ pre :=
  c7_scales_before_operate.2 (.cons (.fld 4 0) .nil) (.cons (.fld 4 0) .nil) none
    false none none true true true 2 50 none true
    (.fut (.cons (.fld 4 0) .nil) (.cons (.fld 4 0) .nil) none false none none
      true true true 2 50)
    50 _ (by decide)

/-- C10: when `enforce_conditions` or `operate` raises during a forced
evaluation (past the cache check, with all arguments resolved), the
exception propagates out of `evaluate` and the node's `args` is left
holding the substituted evaluated arguments — the `reset` of line 194 runs
only on normal completion. -/
theorem c10_exception_keeps_substitution (args orig : EList) (outO : Option Nat)
    (sl : Bool) (lid lout : Option Nat) (chk enfOk opOk : Bool) (deal alloc : Nat)
    (id : Option Nat)
    (hmiss : ¬(sl = true ∧ id.isSome = true ∧ id = lid))
    (hnr : (evalArgs args id true deal).2.2.1 = false)
    (hok : allOk args id true = true)
    (hko : enfOk = false ∨ opOk = false) :
    (evalNode (.fut args orig outO sl lid lout chk enfOk opOk deal alloc) id
        true).2.1 = .raised ∧
    argsOf (evalNode (.fut args orig outO sl lid lout chk enfOk opOk deal alloc)
        id true).1 = substArgs args id true deal := by
  have hE := evalArgs_no_raise args id true deal hnr
  rw [hok] at hE
  rw [evalNode_fut_eq]
  by_cases h1 : (sl && id.isSome) = true
  · have hsl : sl = true := (Bool.and_eq_true _ _ |>.mp h1).1
    have hid : id.isSome = true := (Bool.and_eq_true _ _ |>.mp h1).2
    have h2 : ¬ (id = lid) := fun hh => hmiss ⟨hsl, hid, hh⟩
    rw [if_pos h1, if_neg h2, pipeline, hE]
    have hr := finishEval_raised orig outO sl none none chk enfOk opOk deal alloc
      id (substArgs args id true deal) (argTraces args id true deal) hko
    exact ⟨hr.1, by rw [hr.2]; rfl⟩
  · rw [if_neg h1, pipeline, hE]
    have hr := finishEval_raised orig outO sl lid lout chk enfOk opOk deal alloc
      id (substArgs args id true deal) (argTraces args id true deal) hko
    exact ⟨hr.1, by rw [hr.2]; rfl⟩

theorem c10_exception_keeps_substitution_witness :
    (evalNode (.fut (.cons (.fut .nil .nil none false none none true true true 1 61)
          .nil)
        (.cons (.fut .nil .nil none false none none true true true 1 61) .nil)
        none false none none true false true 1 60) none true).2.1 = .raised ∧
    argsOf (evalNode (.fut
        (.cons (.fut .nil .nil none false none none true true true 1 61) .nil)
        (.cons (.fut .nil .nil none false none none true true true 1 61) .nil)
        none false none none true false true 1 60) none true).1 =
      substArgs (.cons (.fut .nil .nil none false none none true true true 1 61)
        .nil) none true 1 ∧
    argsOf (evalNode (.fut
        (.cons (.fut .nil .nil none false none none true true true 1 61) .nil)
        (.cons (.fut .nil .nil none false none none true true true 1 61) .nil)
        none false none none true false true 1 60) none true).1 ≠
      origOf (evalNode (.fut
        (.cons (.fut .nil .nil none false none none true true true 1 61) .nil)
        (.cons (.fut .nil .nil none false none none true true true 1 61) .nil)
        none false none none true false true 1 60) none true).1 := by
  have h := c10_exception_keeps_substitution
    (.cons (.fut .nil .nil none false none none true true true 1 61) .nil)
    (.cons (.fut .nil .nil none false none none true true true 1 61) .nil)
    none false none none true false true 1 60 none (by decide) (by decide)
    (by decide) (Or.inl rfl)
  exact ⟨h.1, h.2, by decide⟩

end Dedalus
